import Mathlib

/-
Verification of the interned-identifier contract of msg_interned_id.

The repository is a derive macro (src/src/lib.rs): for a newtype struct
wrapping bevy::ecs::intern::Interned<str> it emits a per-type static
interner, `new`/`as_str`, Display/From/Deref/Default, serde impls, and the
bevy reflection hierarchy.  We embed the emitted code for one identifier
kind.  The interning table itself lives in the external engine library, so
it is modelled from the spec (insert-or-lookup into a canonical,
append-only store); everything layered on top of it is translated from the
macro's emitted code in src/src/lib.rs.
-/

set_option autoImplicit false

/-- Modelled from the spec: the per-kind Interning Table of
`bevy::ecs::intern::Interner<str>` (external to this repository).  The
spec's data model: "a mapping from string content to a single canonical,
immutable, process-lifetime storage location for that content", growing
monotonically and never cleared.  We model the canonical storage as the
list of interned strings in insertion order; a storage location (the
pointer held by `Interned<str>`) is the index of the entry. -/
structure InternerState where
  entries : List String
deriving DecidableEq

/-- The value wrapped by the generated ID type: `Interned<str>` is a
`&'static str` pointer into the canonical storage; we model the pointer as
the entry's index `loc`. -/
structure InternedStr where
  loc : Nat
deriving DecidableEq

/-- Modelled from the spec: lookup of string content in the canonical
store, returning the location of the (first) canonical entry holding that
content, if any. -/
def internLookup : List String → String → Option Nat
  | [], _ => none
  | e :: rest, s => if e = s then some 0 else (internLookup rest s).map (· + 1)

/-- The string stored at a location of the canonical store (dereferencing
the `&'static str`); out-of-range locations never arise from `intern`. -/
def entryAt : List String → Nat → String
  | [], _ => ""
  | e :: _, 0 => e
  | _ :: rest, n + 1 => entryAt rest n

/-- Modelled from the spec: `Interner::intern` (external), the atomic
insert-or-lookup: "looks up text in this kind's Interning Table; if
absent, inserts it, taking ownership of a new immutable copy; returns an
identifier referencing the canonical entry (new or pre-existing)". -/
def intern (st : InternerState) (s : String) : InternerState × InternedStr :=
  match internLookup st.entries s with
  | some i => (st, ⟨i⟩)
  | none => (⟨st.entries ++ [s]⟩, ⟨st.entries.length⟩)

/-- Emitted `new` (src/src/lib.rs, generate_core_impl): interns the string
in the per-type static interner and wraps the result. -/
def new (st : InternerState) (s : String) : InternerState × InternedStr :=
  intern st s

/-- Emitted `as_str` (src/src/lib.rs, generate_core_impl): `self.0.0`,
dereferencing the interned pointer into the canonical storage. -/
def as_str (st : InternerState) (id : InternedStr) : String :=
  entryAt st.entries id.loc

/-- The `PartialEq` the caller derives on the newtype delegates to
`Interned<str>`, whose equality is pointer equality into the canonical
store: equality of locations. -/
def idEq (a b : InternedStr) : Bool :=
  a.loc == b.loc

/-- An identifier is canonical in a state when its location is the
canonical entry for the content it dereferences to: exactly what `intern`
returns. -/
def canonicalIn (st : InternerState) (id : InternedStr) : Prop :=
  internLookup st.entries (as_str st id) = some id.loc

instance (st : InternerState) (id : InternedStr) : Decidable (canonicalIn st id) :=
  decidable_of_iff (internLookup st.entries (as_str st id) = some id.loc) Iff.rfl

/- ### Lookup lemmas -/

theorem internLookup_some {l : List String} {s : String} {i : Nat}
    (h : internLookup l s = some i) : i < l.length ∧ entryAt l i = s := by
  induction l generalizing i with
  | nil => simp [internLookup] at h
  | cons e rest ih =>
    by_cases he : e = s
    · simp [internLookup, he] at h
      subst h
      simp [entryAt, he]
    · simp [internLookup, he] at h
      obtain ⟨j, hj, rfl⟩ := h
      obtain ⟨h1, h2⟩ := ih hj
      exact ⟨by simpa using h1, by simpa [entryAt] using h2⟩

theorem internLookup_none_iff {l : List String} {s : String} :
    internLookup l s = none ↔ s ∉ l := by
  induction l with
  | nil => simp [internLookup]
  | cons e rest ih =>
    by_cases he : e = s
    · simp [internLookup, he]
    · simp [internLookup, he, ih, Ne.symm he]

theorem internLookup_append_some {l l2 : List String} {s : String} {i : Nat}
    (h : internLookup l s = some i) : internLookup (l ++ l2) s = some i := by
  induction l generalizing i with
  | nil => simp [internLookup] at h
  | cons e rest ih =>
    by_cases he : e = s
    · simp [internLookup, he] at h ⊢
      exact h
    · simp [internLookup, he] at h ⊢
      obtain ⟨j, hj, rfl⟩ := h
      exact ⟨j, ih hj, rfl⟩

theorem internLookup_append_none {l : List String} {x s : String}
    (h : internLookup l s = none) :
    internLookup (l ++ [x]) s = if x = s then some l.length else none := by
  induction l with
  | nil => simp [internLookup]
  | cons e rest ih =>
    by_cases he : e = s
    · simp [internLookup, he] at h
    · simp [internLookup, he] at h ⊢
      rw [ih h]
      by_cases hx : x = s <;> simp [hx]

theorem entryAt_append_of_lt {l l2 : List String} {i : Nat} (h : i < l.length) :
    entryAt (l ++ l2) i = entryAt l i := by
  induction l generalizing i with
  | nil => simp at h
  | cons e rest ih =>
    cases i with
    | zero => simp [entryAt]
    | succ n => simpa [entryAt] using ih (by simpa using h)

theorem entryAt_append_self (l : List String) (x : String) :
    entryAt (l ++ [x]) l.length = x := by
  induction l with
  | nil => simp [entryAt]
  | cons e rest ih => simpa [entryAt] using ih

/- ### Core interning lemmas -/

theorem as_str_new (st : InternerState) (t : String) :
    as_str (new st t).1 (new st t).2 = t := by
  unfold new intern
  cases h : internLookup st.entries t with
  | some i =>
    obtain ⟨_, h2⟩ := internLookup_some h
    simpa [as_str] using h2
  | none => simp [as_str, entryAt_append_self]

theorem canonicalIn_new (st : InternerState) (t : String) :
    canonicalIn (new st t).1 (new st t).2 := by
  unfold canonicalIn
  rw [as_str_new]
  unfold new intern
  cases h : internLookup st.entries t with
  | some i => simp [h]
  | none => simp [h, internLookup_append_none h]

theorem new_of_canonical {st : InternerState} {id : InternedStr}
    (h : canonicalIn st id) : new st (as_str st id) = (st, id) := by
  unfold new intern
  rw [h]

theorem canonicalIn_preserved {st : InternerState} {id : InternedStr}
    (h : canonicalIn st id) (t : String) : canonicalIn (new st t).1 id := by
  unfold canonicalIn at h ⊢
  have hlt : id.loc < st.entries.length := (internLookup_some h).1
  unfold new intern
  cases ht : internLookup st.entries t with
  | some i => simpa using h
  | none =>
    have hstr : as_str ⟨st.entries ++ [t]⟩ id = as_str st id := by
      simp [as_str, entryAt_append_of_lt hlt]
    simp only [hstr]
    exact internLookup_append_some h

/- ### Remaining emitted operations (src/src/lib.rs) -/

/-- Emitted `Default::default` (generate_standard_traits): `Self::new("")`. -/
def defaultId (st : InternerState) : InternerState × InternedStr :=
  new st ""

/-- Emitted `From<&str>::from` (generate_standard_traits): `Self::new(s)`. -/
def fromStr (st : InternerState) (s : String) : InternerState × InternedStr :=
  new st s

/-- Emitted `From<String>::from` (generate_standard_traits):
`Self::new(&s)`; the owned string dereferences to the same text. -/
def fromString (st : InternerState) (s : String) : InternerState × InternedStr :=
  new st s

/-- Emitted `Display::fmt` (generate_standard_traits): writes exactly
`self.as_str()`. -/
def display (st : InternerState) (id : InternedStr) : String :=
  as_str st id

/-- Emitted `PartialReflect::debug` (generate_partial_reflect_impl):
writes the type name followed by the text in quotes,
`NameStr("text")`. -/
def debug (nameStr : String) (st : InternerState) (id : InternedStr) : String :=
  nameStr ++ "(\"" ++ as_str st id ++ "\")"

/-- The `Hash` the caller derives on the newtype delegates to
`Interned<str>`, which hashes the pointer into the canonical store; the
hasher consumes the location. -/
def hashId (hasher : Nat → Nat) (id : InternedStr) : Nat :=
  hasher id.loc

/-- Emitted `PartialReflect::reflect_hash` (generate_partial_reflect_impl):
feeds `self` to a fresh hasher via the same derived `Hash` and returns the
finished value. -/
def reflect_hash (hasher : Nat → Nat) (id : InternedStr) : Nat :=
  hashId hasher id

/-- Self-describing data model of the serde value being read or written: a
string, or one of the non-string shapes a document can hold. -/
inductive SerdeValue where
  | str (s : String)
  | num (n : Int)
  | boolean (b : Bool)
  | null
  | arr (xs : List SerdeValue)
  | obj (fields : List (String × SerdeValue))

/-- Whether a serde value is a plain string. -/
def SerdeValue.isStr : SerdeValue → Bool
  | .str _ => true
  | _ => false

/-- The serde data-format error raised when the value has the wrong shape
(the spec's `FormatError`), carrying the unexpected shape's name. -/
inductive FormatError where
  | invalidType (found : String)
deriving DecidableEq

/-- Shape name used in the error message. -/
def SerdeValue.shapeName : SerdeValue → String
  | .str _ => "string"
  | .num _ => "number"
  | .boolean _ => "boolean"
  | .null => "null"
  | .arr _ => "array"
  | .obj _ => "object"

/-- `String::deserialize`: succeeds exactly on a string value, otherwise
reports an invalid-type format error. -/
def deserializeString : SerdeValue → Except FormatError String
  | .str s => .ok s
  | v => .error (.invalidType v.shapeName)

/-- Emitted `Serialize::serialize` (generate_serde_impls):
`serializer.serialize_str(self.as_str())`, a bare string on the wire. -/
def serialize (st : InternerState) (id : InternedStr) : SerdeValue :=
  .str (as_str st id)

/-- Emitted `Deserialize::deserialize` (generate_serde_impls): read a
string (propagating its error with `?`), then intern it with `new`. -/
def deserialize (st : InternerState) (v : SerdeValue) :
    Except FormatError (InternerState × InternedStr) :=
  match deserializeString v with
  | .ok s => .ok (new st s)
  | .error e => .error e

/-- A linearization of construction calls: the per-kind interner's
insert-or-lookup is atomic (spec, section 5), so any concurrent execution
of constructions is some sequential order of the individual `new` calls;
`internAll` runs one such order and collects the returned identifiers. -/
def internAll (st : InternerState) : List String → InternerState × List InternedStr
  | [] => (st, [])
  | t :: ts =>
    let r := new st t
    let rest := internAll r.1 ts
    (rest.1, r.2 :: rest.2)

/-- The dynamic value handed to the emitted `apply`/`try_apply`: either a
reflected value of this very ID type (downcast succeeds) or a value of a
different reflected type, carrying its type path (downcast fails). -/
inductive ReflectValue where
  | same (id : InternedStr)
  | other (typePath : String)

/-- `value.try_downcast_ref::<Self>()`: succeeds exactly when the dynamic
value is of this ID type. -/
def tryDowncast : ReflectValue → Option InternedStr
  | .same id => some id
  | .other _ => none

/-- `value.reflect_type_path()` as read by the emitted error branch. -/
def reflectTypePath (selfTypePath : String) : ReflectValue → String
  | .same _ => selfTypePath
  | .other p => p

/-- The bevy `ApplyError` variant produced by the emitted `try_apply`:
`MismatchedTypes { from_type, to_type }`. -/
inductive ApplyError where
  | mismatchedTypes (fromType toType : String)
deriving DecidableEq

/-- Emitted `PartialReflect::apply` (generate_partial_reflect_impl): if
the value downcasts to `Self`, overwrite `self` with it; otherwise do
nothing. -/
def apply (self : InternedStr) (v : ReflectValue) : InternedStr :=
  match tryDowncast v with
  | some other => other
  | none => self

/-- Emitted `PartialReflect::try_apply` (generate_partial_reflect_impl):
if the value downcasts to `Self`, overwrite `self` and return `Ok(())`;
otherwise leave `self` and return the `MismatchedTypes` error built from
the value's type path and `Self::type_path()`. -/
def try_apply (selfTypePath : String) (self : InternedStr) (v : ReflectValue) :
    InternedStr × Except ApplyError Unit :=
  match tryDowncast v with
  | some other => (other, .ok ())
  | none => (self, .error (.mismatchedTypes (reflectTypePath selfTypePath v) selfTypePath))

/- ### Further helper lemmas -/

theorem as_str_preserved {st : InternerState} {id : InternedStr}
    (h : canonicalIn st id) (t : String) : as_str (new st t).1 id = as_str st id := by
  have hlt : id.loc < st.entries.length := (internLookup_some h).1
  unfold new intern
  cases ht : internLookup st.entries t with
  | some i => rfl
  | none => simp [as_str, entryAt_append_of_lt hlt]

theorem internAll_replicate_of_canonical {st : InternerState} {a : InternedStr}
    {t : String} (hc : canonicalIn st a) (hs : as_str st a = t) (n : Nat) :
    internAll st (List.replicate n t) = (st, List.replicate n a) := by
  induction n with
  | zero => rfl
  | succ m ih =>
    have hnew : new st t = (st, a) := by
      rw [← hs]
      exact new_of_canonical hc
    simp [List.replicate_succ, internAll, hnew, ih]

theorem internAll_replicate (st : InternerState) (t : String) (n : Nat) :
    internAll st (List.replicate (n + 1) t) =
      ((new st t).1, List.replicate (n + 1) (new st t).2) := by
  have hrest := internAll_replicate_of_canonical (canonicalIn_new st t) (as_str_new st t) n
  simp [List.replicate_succ, internAll, hrest]

/- ### Claim theorems -/

/-- C1: for every identifier kind and all strings `t1`, `t2`, interning
them in sequence yields identifiers that compare equal (pointer equality
on the canonical entry) if and only if the texts are equal: interning the
same text twice references the same canonical entry, different text gives
unequal identifiers. -/
theorem new_eq_iff_text_eq (st : InternerState) (t1 t2 : String) :
    idEq (new st t1).2 (new (new st t1).1 t2).2 = true ↔ t1 = t2 := by
  constructor
  · intro h
    have h1 : as_str (new (new st t1).1 t2).1 (new st t1).2 = t1 := by
      rw [as_str_preserved (canonicalIn_new st t1) t2, as_str_new]
    have h2 : as_str (new (new st t1).1 t2).1 (new (new st t1).1 t2).2 = t2 :=
      as_str_new _ t2
    have hloc : (new st t1).2.loc = (new (new st t1).1 t2).2.loc := by
      simpa [idEq] using h
    calc t1 = as_str (new (new st t1).1 t2).1 (new st t1).2 := h1.symm
      _ = as_str (new (new st t1).1 t2).1 (new (new st t1).1 t2).2 := by
            simp [as_str, hloc]
      _ = t2 := h2
  · intro h
    subst h
    have hself := new_of_canonical (canonicalIn_new st t1)
    rw [as_str_new st t1] at hself
    rw [hself]
    simp [idEq]

/-- C2: an identifier serializes as its plain text content (a bare
string) and deserializing that string reconstructs an identifier equal to
the original, for every identifier that references a canonical entry (as
every constructed identifier does). -/
theorem serde_roundtrip (st : InternerState) (id : InternedStr)
    (h : canonicalIn st id) :
    serialize st id = SerdeValue.str (as_str st id) ∧
    deserialize st (serialize st id) = .ok (st, id) := by
  refine ⟨rfl, ?_⟩
  simp [deserialize, serialize, deserializeString, new_of_canonical h]

theorem serde_roundtrip_witness :
    canonicalIn ⟨["fireball"]⟩ ⟨0⟩ ∧
    (serialize ⟨["fireball"]⟩ ⟨0⟩ = SerdeValue.str (as_str ⟨["fireball"]⟩ ⟨0⟩) ∧
     deserialize ⟨["fireball"]⟩ (serialize ⟨["fireball"]⟩ ⟨0⟩) =
       .ok (⟨["fireball"]⟩, ⟨0⟩)) :=
  ⟨by decide, serde_roundtrip ⟨["fireball"]⟩ ⟨0⟩ (by decide)⟩

/-- C3: for every string, including the empty string and text with
non-ASCII characters, null bytes or newlines, construction preserves the
content exactly: `as_str` on the freshly constructed identifier reads back
text equal to the input. -/
theorem new_preserves_content (st : InternerState) (t : String) :
    as_str (new st t).1 (new st t).2 = t :=
  as_str_new st t

/-- C4: construction never fails (it is a total function returning the
exact content for every input string), and deserialization fails with a
`FormatError` exactly when the source value is not a string; the error is
returned to the caller. -/
theorem construction_total_deserialize_fails_iff (st : InternerState)
    (t : String) (v : SerdeValue) :
    as_str (new st t).1 (new st t).2 = t ∧
    ((∃ e : FormatError, deserialize st v = Except.error e) ↔ v.isStr = false) := by
  refine ⟨as_str_new st t, ?_⟩
  cases v <;> simp [deserialize, deserializeString, SerdeValue.isStr]

/-- C5: equal identifiers hash equal, for every hasher: the derived
`Hash` consumes the canonical entry's identity, and `reflect_hash`
delegates to that same `Hash`. -/
theorem eq_implies_hash_eq (hasher : Nat → Nat) (a b : InternedStr)
    (h : idEq a b = true) :
    hashId hasher a = hashId hasher b ∧
    reflect_hash hasher a = reflect_hash hasher b := by
  have hloc : a.loc = b.loc := by simpa [idEq] using h
  simp [hashId, reflect_hash, hloc]

theorem eq_implies_hash_eq_witness :
    idEq ⟨2⟩ ⟨2⟩ = true ∧
    (hashId Nat.succ ⟨2⟩ = hashId Nat.succ ⟨2⟩ ∧
     reflect_hash Nat.succ ⟨2⟩ = reflect_hash Nat.succ ⟨2⟩) :=
  ⟨by decide, eq_implies_hash_eq Nat.succ ⟨2⟩ ⟨2⟩ (by decide)⟩

/-- C6: the default identifier is obtained by interning the empty string,
and its text is the empty string. -/
theorem default_is_empty_intern (st : InternerState) :
    defaultId st = new st "" ∧ as_str (defaultId st).1 (defaultId st).2 = "" :=
  ⟨rfl, as_str_new st ""⟩

/-- C7: the Display form of a constructed identifier renders exactly the
stored text with no decoration, and the reflection debug form renders the
identifier kind's name followed by the text in quotes. -/
theorem display_debug_format (st : InternerState) (t nameStr : String) :
    display (new st t).1 (new st t).2 = t ∧
    debug nameStr (new st t).1 (new st t).2 = nameStr ++ "(\"" ++ t ++ "\")" := by
  refine ⟨as_str_new st t, ?_⟩
  simp [debug, as_str_new]

/-- C8: conversion from borrowed or owned text is construction: both
`From` impls produce the same result as `new`, hence equal identifiers. -/
theorem from_equals_new (st : InternerState) (s : String) :
    fromStr st s = new st s ∧ fromString st s = new st s ∧
    idEq (fromStr st s).2 (new st s).2 = true := by
  refine ⟨rfl, rfl, ?_⟩
  simp [idEq, fromStr]

/-- C9: N constructions of the same text `t`, executed in the
linearization the atomic interner imposes on concurrent calls, all return
identifiers equal to one another (a set of size 1 under equality) and all
reference the single canonical entry whose stored text is `t`. -/
theorem concurrent_convergence (st : InternerState) (t : String) (n : Nat)
    (h : 0 < n) :
    (internAll st (List.replicate n t)).2.toFinset.card = 1 ∧
    ∀ a ∈ (internAll st (List.replicate n t)).2,
      idEq a (new st t).2 = true ∧
      as_str (internAll st (List.replicate n t)).1 a = t ∧
      canonicalIn (internAll st (List.replicate n t)).1 a := by
  cases n with
  | zero => exact absurd h (by simp)
  | succ m =>
    rw [internAll_replicate]
    refine ⟨?_, ?_⟩
    · rw [List.toFinset_replicate_of_ne_zero (Nat.succ_ne_zero m)]
      exact Finset.card_singleton _
    · intro a ha
      have := List.eq_of_mem_replicate ha
      subst this
      exact ⟨by simp [idEq], as_str_new st t, canonicalIn_new st t⟩

theorem concurrent_convergence_witness :
    0 < 3 ∧
    ((internAll ⟨[]⟩ (List.replicate 3 "fireball")).2.toFinset.card = 1 ∧
     ∀ a ∈ (internAll ⟨[]⟩ (List.replicate 3 "fireball")).2,
       idEq a (new ⟨[]⟩ "fireball").2 = true ∧
       as_str (internAll ⟨[]⟩ (List.replicate 3 "fireball")).1 a = "fireball" ∧
       canonicalIn (internAll ⟨[]⟩ (List.replicate 3 "fireball")).1 a) :=
  ⟨by decide, concurrent_convergence ⟨[]⟩ "fireball" 3 (by decide)⟩

/-- C10: applying a reflected value of a different type leaves the
identifier unchanged (`apply` is a silent no-op, `try_apply` additionally
returns a `MismatchedTypes` error built from both type paths), while a
value of the same type replaces the identifier in both operations. -/
theorem apply_try_apply_behavior (selfTypePath : String)
    (self other : InternedStr) (p : String) :
    apply self (.same other) = other ∧
    try_apply selfTypePath self (.same other) = (other, .ok ()) ∧
    apply self (.other p) = self ∧
    try_apply selfTypePath self (.other p) =
      (self, .error (.mismatchedTypes p selfTypePath)) :=
  ⟨rfl, rfl, rfl, rfl⟩
